import Mathlib

/-!
Verification of the worker activity state machine and pool controller of the
`kirk` crate (`src/crew/deque.rs`), shallowly embedded in Lean.

Modelling conventions:
- `u32` and `usize` fields are `Nat`; arithmetic that can overflow in the
  source (the `retries += 1` in `become_cooler`, the `next_id += 1` in `hire`)
  is taken modulo `2^32` resp. `2^64`, matching release-mode wrapping.
- A job's `perform()` either completes or terminates abnormally; a `Job` is
  modelled by the single bit of behaviour visible to the worker loop, the
  field `completes`. The non-"nightly" build is embedded: an abnormal
  termination propagates out of `does` (modelled by `Option`).
- `wait(&self)` takes the receiver immutably and only yields or sleeps; it is
  embedded as returning the requested wait action together with the (by
  construction unchanged) worker state.
- The `chase_lev` stealer handle is external; a handle is modelled as a tag,
  and cloning a handle yields a handle to the same queue (the same tag).
-/

namespace Kirk

/-- Wrap-around modulus of the Rust `u32` type. -/
def u32Size : Nat := 2 ^ 32

/-- Wrap-around modulus of the Rust `usize` type (64-bit target). -/
def usizeSize : Nat := 2 ^ 64

/-- The per-worker activity level, `enum Load { Hot, Warm, Cold }`. -/
inductive Load where
  | Hot
  | Warm
  | Cold
deriving DecidableEq

/-- The crew options: `retry_threshold: u32`, `cold_interval: Duration`
(modelled as a nanosecond count), `num_workers: usize`. -/
structure Options where
  retry_threshold : Nat
  cold_interval : Nat
  num_workers : Nat
deriving DecidableEq

/-- A job, reduced to the only behaviour the worker loop observes from
`job.perform()`: whether it completes normally. -/
structure Job where
  completes : Bool
deriving DecidableEq

/-- The queue payload, `enum Message<J> { Work(J), Stop }`. -/
inductive Message where
  | Work (job : Job)
  | Stop
deriving DecidableEq

/-- Outcome of a steal attempt, `chase_lev::Steal`. -/
inductive Steal where
  | Data (msg : Message)
  | Abort
  | Empty
deriving DecidableEq

/-- State of a `DequeWorker<J>`: id, load, retries, options, and the cloned
stealer handle (a tag identifying the shared queue). -/
structure DequeWorker where
  id : Nat
  load : Load
  retries : Nat
  options : Options
  stealer : Nat
deriving DecidableEq

/-- Action taken by `DequeWorker::wait`: continue at once, `yield_now()`, or
`sleep(cold_interval)`. -/
inductive WaitAction where
  | NoDelay
  | Yield
  | Sleep (d : Nat)
deriving DecidableEq

/-- `DequeWorker::does` (non-"nightly" build): run the job, then set the load
to `Hot`. An abnormal termination of `perform` propagates, so the load update
is never reached: result `none`. -/
def DequeWorker.does (w : DequeWorker) (job : Job) : Option DequeWorker :=
  if job.completes then some { w with load := Load.Hot } else none

/-- `DequeWorker::become_warm`: load becomes `Warm` and the retry counter is
reset to 0. -/
def DequeWorker.become_warm (w : DequeWorker) : DequeWorker :=
  { w with load := Load.Warm, retries := 0 }

/-- `DequeWorker::become_cooler`: `retries += 1` (wrapping `u32` addition),
then load becomes `Cold` if the new count reached the threshold. -/
def DequeWorker.become_cooler (w : DequeWorker) : DequeWorker :=
  let r := (w.retries + 1) % u32Size
  if w.options.retry_threshold ≤ r then
    { w with retries := r, load := Load.Cold }
  else
    { w with retries := r }

/-- `DequeWorker::missed`: reaction to `Abort` (lost a steal race). -/
def DequeWorker.missed (w : DequeWorker) : DequeWorker :=
  if w.options.retry_threshold = 0 then
    { w with load := Load.Cold }
  else
    match w.load with
    | Load.Hot => w.become_warm
    | Load.Warm => w.become_cooler
    | Load.Cold => { w with load := Load.Hot }

/-- `DequeWorker::nothing`: reaction to `Empty` (queue held nothing). -/
def DequeWorker.nothing (w : DequeWorker) : DequeWorker :=
  if w.options.retry_threshold = 0 then
    { w with load := Load.Cold }
  else
    match w.load with
    | Load.Hot => w.become_warm
    | Load.Warm => w.become_cooler
    | Load.Cold => w

/-- `DequeWorker::wait(&self)`: choose the wait action from the load. The
receiver is borrowed immutably, so the state component of the result is the
input state. -/
def DequeWorker.wait (w : DequeWorker) : WaitAction × DequeWorker :=
  (match w.load with
   | Load.Hot => WaitAction.NoDelay
   | Load.Warm => WaitAction.Yield
   | Load.Cold => WaitAction.Sleep w.options.cold_interval, w)

/-- Result of one iteration of `DequeWorker::run`: continue looping with a new
state after performing the given wait action, exit the loop via `break` on
`Stop`, or die from a propagated job failure. -/
inductive IterResult where
  | Continue (w : DequeWorker) (a : WaitAction)
  | Stopped
  | Panicked
deriving DecidableEq

/-- One iteration of the `loop` in `DequeWorker::run`, given the outcome of
`self.stealer.steal()`. -/
def DequeWorker.runStep (w : DequeWorker) (s : Steal) : IterResult :=
  match s with
  | Steal.Data (Message.Work job) =>
      match w.does job with
      | some w1 => IterResult.Continue w1.wait.2 w1.wait.1
      | none => IterResult.Panicked
  | Steal.Data Message.Stop => IterResult.Stopped
  | Steal.Abort => IterResult.Continue w.missed.wait.2 w.missed.wait.1
  | Steal.Empty => IterResult.Continue w.nothing.wait.2 w.nothing.wait.1

/-- Clone of a stealer handle: a handle to the same shared queue. -/
def cloneStealer (s : Nat) : Nat := s

/-- State of the pool controller `Deque<J>`: the id counter, the options, the
producer side of the queue (the list of pushed messages, oldest first), and
the retained stealer handle. -/
structure Deque where
  next_id : Nat
  options : Options
  queue : List Message
  stealer : Nat
deriving DecidableEq

/-- `Deque::new`: fresh queue, id counter 0. -/
def Deque.new (options : Options) : Deque :=
  { next_id := 0, options := options, queue := [], stealer := 0 }

/-- `chase_lev::Worker::push`: append one message at the producer end. -/
def Deque.push (d : Deque) (m : Message) : Deque :=
  { d with queue := d.queue ++ [m] }

/-- `Deque::hire`: mint a worker with the current id, then bump the counter
(wrapping `usize` addition). -/
def Deque.hire (d : Deque) : DequeWorker × Deque :=
  ({ id := d.next_id, load := Load.Hot, retries := 0, options := d.options,
     stealer := cloneStealer d.stealer },
   { d with next_id := (d.next_id + 1) % usizeSize })

/-- `Deque::give`: push a work message. -/
def Deque.give (d : Deque) (job : Job) : Deque :=
  d.push (Message.Work job)

/-- `Deque::stop`: push one `Stop` message per configured worker. -/
def Deque.stop (d : Deque) : Deque :=
  (List.range d.options.num_workers).foldl (fun acc _ => acc.push Message.Stop) d

/-- Controller state after `n` consecutive calls to `hire`. -/
def Deque.hireN (d : Deque) : Nat → Deque
  | 0 => d
  | n + 1 => (d.hireN n).hire.2

/-- A failed steal outcome: `Abort` or `Empty`. -/
inductive Fail where
  | abort
  | empty
deriving DecidableEq

/-- Worker reaction to one failed steal outcome. -/
def failStep (w : DequeWorker) (f : Fail) : DequeWorker :=
  match f with
  | Fail.abort => w.missed
  | Fail.empty => w.nothing

/-- Worker state after a sequence of failed steal outcomes. -/
def applyFails (w : DequeWorker) (fs : List Fail) : DequeWorker :=
  fs.foldl failStep w

/-! ### Case lemmas for the transition functions -/

theorem missed_threshold_zero (w : DequeWorker)
    (h : w.options.retry_threshold = 0) :
    w.missed = { w with load := Load.Cold } := by
  simp [DequeWorker.missed, h]

theorem nothing_threshold_zero (w : DequeWorker)
    (h : w.options.retry_threshold = 0) :
    w.nothing = { w with load := Load.Cold } := by
  simp [DequeWorker.nothing, h]

theorem missed_hot (w : DequeWorker) (h0 : w.options.retry_threshold ≠ 0)
    (hw : w.load = Load.Hot) : w.missed = w.become_warm := by
  simp [DequeWorker.missed, h0, hw]

theorem nothing_hot (w : DequeWorker) (h0 : w.options.retry_threshold ≠ 0)
    (hw : w.load = Load.Hot) : w.nothing = w.become_warm := by
  simp [DequeWorker.nothing, h0, hw]

theorem missed_warm (w : DequeWorker) (h0 : w.options.retry_threshold ≠ 0)
    (hw : w.load = Load.Warm) : w.missed = w.become_cooler := by
  simp [DequeWorker.missed, h0, hw]

theorem nothing_warm (w : DequeWorker) (h0 : w.options.retry_threshold ≠ 0)
    (hw : w.load = Load.Warm) : w.nothing = w.become_cooler := by
  simp [DequeWorker.nothing, h0, hw]

theorem missed_cold (w : DequeWorker) (h0 : w.options.retry_threshold ≠ 0)
    (hw : w.load = Load.Cold) : w.missed = { w with load := Load.Hot } := by
  simp [DequeWorker.missed, h0, hw]

theorem nothing_cold (w : DequeWorker) (h0 : w.options.retry_threshold ≠ 0)
    (hw : w.load = Load.Cold) : w.nothing = w := by
  simp [DequeWorker.nothing, h0, hw]

theorem become_cooler_no_wrap (w : DequeWorker) (hr : w.retries + 1 < u32Size) :
    w.become_cooler =
      if w.options.retry_threshold ≤ w.retries + 1 then
        { w with retries := w.retries + 1, load := Load.Cold }
      else
        { w with retries := w.retries + 1 } := by
  simp [DequeWorker.become_cooler, Nat.mod_eq_of_lt hr]

/-! ### C1 -/

/-- Counterexample to C1: an already-Cold worker with `retry_threshold = 0`
stays Cold on an Abort outcome; it does not reheat to Hot as the claim
states. -/
theorem cold_abort_threshold_zero_stays_cold :
    (DequeWorker.missed ⟨7, Load.Cold, 3, ⟨0, 1000000, 4⟩, 0⟩).load = Load.Cold ∧
    (DequeWorker.missed ⟨7, Load.Cold, 3, ⟨0, 1000000, 4⟩, 0⟩).load ≠ Load.Hot := by
  constructor
  · rfl
  · intro h
    exact Load.noConfusion h

/-- C1 (amended): with `retry_threshold = 0` the ramp is disabled: any Abort
or Empty outcome sets the load to Cold unconditionally, whatever the prior
load was (so never to Warm); in particular an already-Cold worker stays Cold
on Abort as well as on Empty, and never reheats to Hot. The retry counter is
left untouched. -/
theorem threshold_zero_forces_cold (w : DequeWorker)
    (h : w.options.retry_threshold = 0) :
    w.missed.load = Load.Cold ∧ w.nothing.load = Load.Cold ∧
    w.missed.load ≠ Load.Warm ∧ w.nothing.load ≠ Load.Warm ∧
    w.missed.load ≠ Load.Hot ∧ w.nothing.load ≠ Load.Hot ∧
    w.missed.retries = w.retries ∧ w.nothing.retries = w.retries := by
  rw [missed_threshold_zero w h, nothing_threshold_zero w h]
  refine ⟨rfl, rfl, ?_, ?_, ?_, ?_, rfl, rfl⟩ <;> intro hc <;> exact Load.noConfusion hc

theorem threshold_zero_forces_cold_witness :
    (DequeWorker.missed ⟨0, Load.Warm, 5, ⟨0, 1000, 2⟩, 0⟩).load = Load.Cold ∧
    (DequeWorker.nothing ⟨0, Load.Warm, 5, ⟨0, 1000, 2⟩, 0⟩).load = Load.Cold ∧
    (DequeWorker.missed ⟨0, Load.Warm, 5, ⟨0, 1000, 2⟩, 0⟩).load ≠ Load.Warm ∧
    (DequeWorker.nothing ⟨0, Load.Warm, 5, ⟨0, 1000, 2⟩, 0⟩).load ≠ Load.Warm ∧
    (DequeWorker.missed ⟨0, Load.Warm, 5, ⟨0, 1000, 2⟩, 0⟩).load ≠ Load.Hot ∧
    (DequeWorker.nothing ⟨0, Load.Warm, 5, ⟨0, 1000, 2⟩, 0⟩).load ≠ Load.Hot ∧
    (DequeWorker.missed ⟨0, Load.Warm, 5, ⟨0, 1000, 2⟩, 0⟩).retries = 5 ∧
    (DequeWorker.nothing ⟨0, Load.Warm, 5, ⟨0, 1000, 2⟩, 0⟩).retries = 5 :=
  threshold_zero_forces_cold ⟨0, Load.Warm, 5, ⟨0, 1000, 2⟩, 0⟩ rfl

/-! ### C7 -/

/-- C7: the wait step is determined solely by the load after the transition:
`Hot` performs no delay, `Warm` performs exactly one cooperative yield, and
`Cold` sleeps for the configured `cold_interval`. -/
theorem wait_policy (w : DequeWorker) :
    (w.wait.1 = WaitAction.NoDelay ↔ w.load = Load.Hot) ∧
    (w.wait.1 = WaitAction.Yield ↔ w.load = Load.Warm) ∧
    (∀ d : Nat, w.wait.1 = WaitAction.Sleep d ↔
      (w.load = Load.Cold ∧ d = w.options.cold_interval)) := by
  obtain ⟨i, l, r, o, s⟩ := w
  cases l <;> simp [DequeWorker.wait, eq_comm]

/-! ### C9 -/

/-- C9: a Cold worker never moves to Warm in a single step, for any
`retry_threshold`: on Abort it becomes Cold or Hot, on Empty it stays Cold,
and a successful Work steal makes it Hot. -/
theorem cold_never_steps_to_warm (w : DequeWorker) (h : w.load = Load.Cold) :
    (w.missed.load = Load.Cold ∨ w.missed.load = Load.Hot) ∧
    w.nothing.load = Load.Cold ∧
    (∀ (j : Job) (w1 : DequeWorker), w.does j = some w1 → w1.load = Load.Hot) := by
  refine ⟨?_, ?_, ?_⟩
  · by_cases h0 : w.options.retry_threshold = 0
    · rw [missed_threshold_zero w h0]; exact Or.inl rfl
    · rw [missed_cold w h0 h]; exact Or.inr rfl
  · by_cases h0 : w.options.retry_threshold = 0
    · rw [nothing_threshold_zero w h0]
    · rw [nothing_cold w h0 h]; exact h
  · intro j w1 hj
    unfold DequeWorker.does at hj
    by_cases hc : j.completes
    · simp [hc] at hj
      exact hj ▸ rfl
    · simp [hc] at hj

theorem cold_never_steps_to_warm_witness :
    ((DequeWorker.missed ⟨1, Load.Cold, 9, ⟨4, 50, 2⟩, 0⟩).load = Load.Cold ∨
     (DequeWorker.missed ⟨1, Load.Cold, 9, ⟨4, 50, 2⟩, 0⟩).load = Load.Hot) ∧
    (DequeWorker.nothing ⟨1, Load.Cold, 9, ⟨4, 50, 2⟩, 0⟩).load = Load.Cold ∧
    (∀ (j : Job) (w1 : DequeWorker),
      DequeWorker.does ⟨1, Load.Cold, 9, ⟨4, 50, 2⟩, 0⟩ j = some w1 →
        w1.load = Load.Hot) :=
  cold_never_steps_to_warm ⟨1, Load.Cold, 9, ⟨4, 50, 2⟩, 0⟩ rfl

/-! ### C10 -/

/-- C10: the wait step does not modify any worker state: id, load, retry
counter and options are exactly as before, for every load value. -/
theorem wait_frame (w : DequeWorker) :
    w.wait.2 = w ∧ w.wait.2.id = w.id ∧ w.wait.2.load = w.load ∧
    w.wait.2.retries = w.retries ∧ w.wait.2.options = w.options ∧
    w.wait.2.stealer = w.stealer :=
  ⟨rfl, rfl, rfl, rfl, rfl, rfl⟩

theorem become_cooler_retries (w : DequeWorker) :
    w.become_cooler.retries = (w.retries + 1) % u32Size := by
  simp only [DequeWorker.become_cooler]
  split <;> rfl

theorem become_cooler_load (w : DequeWorker) :
    w.become_cooler.load =
      if w.options.retry_threshold ≤ (w.retries + 1) % u32Size then Load.Cold
      else w.load := by
  simp only [DequeWorker.become_cooler]
  split <;> simp_all

/-! ### C3 -/

/-- C3: a step sets the retry counter to 0 exactly when it moves the worker
from Hot to Warm; the Cold-to-Hot reheat on Abort leaves the counter at its
prior value, and a successful Work steal leaves it unchanged. Stated for any
worker whose `u32` retry counter does not overflow on increment. -/
theorem retries_reset_iff_hot_to_warm (w : DequeWorker)
    (hr : w.retries + 1 < u32Size) :
    (∀ f : Fail, w.load = Load.Hot → (failStep w f).load = Load.Warm →
      (failStep w f).retries = 0) ∧
    (∀ f : Fail, (failStep w f).retries = 0 → w.retries ≠ 0 →
      w.load = Load.Hot ∧ (failStep w f).load = Load.Warm) ∧
    (w.load = Load.Cold → 0 < w.options.retry_threshold →
      w.missed.load = Load.Hot ∧ w.missed.retries = w.retries) ∧
    (∀ (j : Job) (w1 : DequeWorker), w.does j = some w1 →
      w1.retries = w.retries) := by
  have hfail : ∀ f : Fail,
      failStep w f = w.missed ∨ failStep w f = w.nothing := by
    intro f
    cases f
    · exact Or.inl rfl
    · exact Or.inr rfl
  refine ⟨?_, ?_, ?_, ?_⟩
  · intro f hw hwar
    by_cases h0 : w.options.retry_threshold = 0
    · exfalso
      rcases hfail f with hf | hf
      · rw [hf, missed_threshold_zero w h0] at hwar
        simp at hwar
      · rw [hf, nothing_threshold_zero w h0] at hwar
        simp at hwar
    · rcases hfail f with hf | hf <;> rw [hf]
      · rw [missed_hot w h0 hw]; rfl
      · rw [nothing_hot w h0 hw]; rfl
  · intro f h0ret hne
    by_cases h0 : w.options.retry_threshold = 0
    · exfalso
      rcases hfail f with hf | hf <;> rw [hf] at h0ret
      · rw [missed_threshold_zero w h0] at h0ret; exact hne h0ret
      · rw [nothing_threshold_zero w h0] at h0ret; exact hne h0ret
    · cases hl : w.load with
      | Hot =>
        constructor
        · rfl
        · rcases hfail f with hf | hf <;> rw [hf]
          · rw [missed_hot w h0 hl]; rfl
          · rw [nothing_hot w h0 hl]; rfl
      | Warm =>
        exfalso
        have hc : (failStep w f).retries = w.retries + 1 := by
          rcases hfail f with hf | hf <;> rw [hf]
          · rw [missed_warm w h0 hl, become_cooler_retries,
              Nat.mod_eq_of_lt hr]
          · rw [nothing_warm w h0 hl, become_cooler_retries,
              Nat.mod_eq_of_lt hr]
        rw [hc] at h0ret
        exact Nat.succ_ne_zero _ h0ret
      | Cold =>
        exfalso
        have hc : (failStep w f).retries = w.retries := by
          rcases hfail f with hf | hf <;> rw [hf]
          · rw [missed_cold w h0 hl]
          · rw [nothing_cold w h0 hl]
        rw [hc] at h0ret
        exact hne h0ret
  · intro hl ht
    rw [missed_cold w (Nat.pos_iff_ne_zero.mp ht) hl]
    exact ⟨rfl, rfl⟩
  · intro j w1 hj
    unfold DequeWorker.does at hj
    by_cases hc : j.completes <;> simp [hc] at hj
    rw [← hj]

theorem retries_reset_iff_hot_to_warm_witness :
    (∀ f : Fail,
      (⟨0, Load.Hot, 4, ⟨8, 100, 2⟩, 0⟩ : DequeWorker).load = Load.Hot →
      (failStep ⟨0, Load.Hot, 4, ⟨8, 100, 2⟩, 0⟩ f).load = Load.Warm →
      (failStep ⟨0, Load.Hot, 4, ⟨8, 100, 2⟩, 0⟩ f).retries = 0) ∧
    (∀ f : Fail, (failStep ⟨0, Load.Hot, 4, ⟨8, 100, 2⟩, 0⟩ f).retries = 0 →
      (4 : Nat) ≠ 0 →
      (⟨0, Load.Hot, 4, ⟨8, 100, 2⟩, 0⟩ : DequeWorker).load = Load.Hot ∧
      (failStep ⟨0, Load.Hot, 4, ⟨8, 100, 2⟩, 0⟩ f).load = Load.Warm) ∧
    ((⟨0, Load.Hot, 4, ⟨8, 100, 2⟩, 0⟩ : DequeWorker).load = Load.Cold →
      0 < (8 : Nat) →
      (DequeWorker.missed ⟨0, Load.Hot, 4, ⟨8, 100, 2⟩, 0⟩).load = Load.Hot ∧
      (DequeWorker.missed ⟨0, Load.Hot, 4, ⟨8, 100, 2⟩, 0⟩).retries = 4) ∧
    (∀ (j : Job) (w1 : DequeWorker),
      DequeWorker.does ⟨0, Load.Hot, 4, ⟨8, 100, 2⟩, 0⟩ j = some w1 →
      w1.retries = 4) :=
  retries_reset_iff_hot_to_warm ⟨0, Load.Hot, 4, ⟨8, 100, 2⟩, 0⟩ (by decide)

/-! ### C4 -/

/-- C4: a steal yielding a Work message whose job completes leaves the worker
Hot, unconditionally overriding whatever the prior load and retry counter
were. -/
theorem work_steal_sets_hot (w : DequeWorker) (j : Job)
    (hj : j.completes = true) :
    w.does j = some { w with load := Load.Hot } ∧
    w.runStep (Steal.Data (Message.Work j)) =
      IterResult.Continue { w with load := Load.Hot }
        (DequeWorker.wait { w with load := Load.Hot }).1 := by
  have hd : w.does j = some { w with load := Load.Hot } := by
    simp [DequeWorker.does, hj]
  refine ⟨hd, ?_⟩
  simp [DequeWorker.runStep, hd, DequeWorker.wait]

theorem work_steal_sets_hot_witness :
    DequeWorker.does ⟨2, Load.Cold, 7, ⟨3, 10, 1⟩, 0⟩ ⟨true⟩ =
      some ⟨2, Load.Hot, 7, ⟨3, 10, 1⟩, 0⟩ ∧
    DequeWorker.runStep ⟨2, Load.Cold, 7, ⟨3, 10, 1⟩, 0⟩
        (Steal.Data (Message.Work ⟨true⟩)) =
      IterResult.Continue ⟨2, Load.Hot, 7, ⟨3, 10, 1⟩, 0⟩ WaitAction.NoDelay :=
  work_steal_sets_hot ⟨2, Load.Cold, 7, ⟨3, 10, 1⟩, 0⟩ ⟨true⟩ rfl

/-! ### C8 -/

/-- C8: an iteration of the worker loop terminates the loop exactly when the
steal yields the Stop sentinel (or, in the propagating build, when the job's
abnormal termination escapes `perform`); Abort, Empty, and a successful Work
steal always continue the loop. -/
theorem run_exits_iff_stop (w : DequeWorker) (s : Steal) :
    (w.runStep s = IterResult.Stopped ↔ s = Steal.Data Message.Stop) ∧
    (w.runStep s = IterResult.Panicked ↔
      ∃ j : Job, s = Steal.Data (Message.Work j) ∧ j.completes = false) ∧
    ((∃ w1 a, w.runStep s = IterResult.Continue w1 a) ↔
      (s = Steal.Abort ∨ s = Steal.Empty ∨
       ∃ j : Job, s = Steal.Data (Message.Work j) ∧ j.completes = true)) := by
  cases s with
  | Data msg =>
    cases msg with
    | Work j =>
      cases hj : j.completes with
      | true => simp [DequeWorker.runStep, DequeWorker.does, hj]
      | false => simp [DequeWorker.runStep, DequeWorker.does, hj]
    | Stop => simp [DequeWorker.runStep]
  | Abort => simp [DequeWorker.runStep]
  | Empty => simp [DequeWorker.runStep]

/-! ### C5 -/

theorem pushStops_spec (d : Deque) (n : Nat) :
    (List.range n).foldl (fun acc _ => acc.push Message.Stop) d =
      { d with queue := d.queue ++ List.replicate n Message.Stop } := by
  induction n with
  | zero => simp
  | succ k ih =>
    rw [List.range_succ, List.foldl_append, ih]
    simp [Deque.push, List.replicate_succ']

/-- C5: `stop` pushes exactly `num_workers` Stop messages, where
`num_workers` is the configured count stored in the controller's options,
independently of how many workers were hired (the id counter plays no role),
and pushes nothing else; the rest of the controller state is untouched. -/
theorem stop_pushes_exactly_num_workers (d : Deque) :
    d.stop.queue = d.queue ++ List.replicate d.options.num_workers Message.Stop ∧
    d.stop.next_id = d.next_id ∧ d.stop.options = d.options ∧
    d.stop.stealer = d.stealer := by
  unfold Deque.stop
  rw [pushStops_spec]
  exact ⟨rfl, rfl, rfl, rfl⟩

/-! ### C6 -/

theorem hireN_next_id (o : Options) (n : Nat) :
    ((Deque.new o).hireN n).next_id = n % usizeSize := by
  induction n with
  | zero => rfl
  | succ k ih =>
    show ((Deque.new o).hireN k).hire.2.next_id = (k + 1) % usizeSize
    simp [Deque.hire, ih, Nat.mod_add_mod]

/-- C6: `hire` returns a worker whose id is the current next-id counter, then
bumps the counter by one; the worker starts Hot with 0 retries, a copy of the
options and a clone of the retained stealer handle. Consequently the k-th
hire from a fresh pool (for k up to the `usize` range) gets id k - 1, and ids
are never reused. -/
theorem hire_spec (d : Deque) (k : Nat) (hk : 0 < k) (hku : k ≤ usizeSize) :
    (d.hire.1.id = d.next_id ∧
     d.hire.1.load = Load.Hot ∧
     d.hire.1.retries = 0 ∧
     d.hire.1.options = d.options ∧
     d.hire.1.stealer = cloneStealer d.stealer ∧
     d.hire.2.next_id = (d.next_id + 1) % usizeSize ∧
     d.hire.2.options = d.options ∧
     d.hire.2.queue = d.queue ∧
     d.hire.2.stealer = d.stealer) ∧
    (∀ o : Options, ((Deque.new o).hireN (k - 1)).hire.1.id = k - 1) ∧
    (∀ (o : Options) (k1 k2 : Nat), 0 < k1 → k1 < k2 → k2 ≤ usizeSize →
      ((Deque.new o).hireN (k1 - 1)).hire.1.id ≠
        ((Deque.new o).hireN (k2 - 1)).hire.1.id) := by
  refine ⟨⟨rfl, rfl, rfl, rfl, rfl, rfl, rfl, rfl, rfl⟩, ?_, ?_⟩
  · intro o
    show ((Deque.new o).hireN (k - 1)).next_id = k - 1
    rw [hireN_next_id]
    exact Nat.mod_eq_of_lt (by omega)
  · intro o k1 k2 h1 h12 h2u
    show ((Deque.new o).hireN (k1 - 1)).next_id ≠
      ((Deque.new o).hireN (k2 - 1)).next_id
    rw [hireN_next_id, hireN_next_id, Nat.mod_eq_of_lt (by omega),
      Nat.mod_eq_of_lt (by omega)]
    omega

theorem hire_spec_witness :
    ((Deque.hire ⟨5, ⟨32, 1000000, 4⟩, [], 0⟩).1.id = 5 ∧
     (Deque.hire ⟨5, ⟨32, 1000000, 4⟩, [], 0⟩).1.load = Load.Hot ∧
     (Deque.hire ⟨5, ⟨32, 1000000, 4⟩, [], 0⟩).1.retries = 0 ∧
     (Deque.hire ⟨5, ⟨32, 1000000, 4⟩, [], 0⟩).1.options = ⟨32, 1000000, 4⟩ ∧
     (Deque.hire ⟨5, ⟨32, 1000000, 4⟩, [], 0⟩).1.stealer = cloneStealer 0 ∧
     (Deque.hire ⟨5, ⟨32, 1000000, 4⟩, [], 0⟩).2.next_id = (5 + 1) % usizeSize ∧
     (Deque.hire ⟨5, ⟨32, 1000000, 4⟩, [], 0⟩).2.options = ⟨32, 1000000, 4⟩ ∧
     (Deque.hire ⟨5, ⟨32, 1000000, 4⟩, [], 0⟩).2.queue = [] ∧
     (Deque.hire ⟨5, ⟨32, 1000000, 4⟩, [], 0⟩).2.stealer = 0) ∧
    (∀ o : Options, ((Deque.new o).hireN (3 - 1)).hire.1.id = 3 - 1) ∧
    (∀ (o : Options) (k1 k2 : Nat), 0 < k1 → k1 < k2 → k2 ≤ usizeSize →
      ((Deque.new o).hireN (k1 - 1)).hire.1.id ≠
        ((Deque.new o).hireN (k2 - 1)).hire.1.id) :=
  hire_spec ⟨5, ⟨32, 1000000, 4⟩, [], 0⟩ 3 (by decide) (by decide)

/-! ### C2 -/

theorem warm_ramp_aux (fs : List Fail) : ∀ w : DequeWorker,
    0 < w.options.retry_threshold → w.options.retry_threshold < u32Size →
    w.load = Load.Warm →
    w.retries + fs.length < w.options.retry_threshold →
    (applyFails w fs).load = Load.Warm ∧
    (applyFails w fs).retries = w.retries + fs.length := by
  induction fs with
  | nil =>
    intro w _ _ hw _
    exact ⟨hw, rfl⟩
  | cons f fs ih =>
    intro w ht htu hw hlt
    simp only [List.length_cons] at hlt
    have h0 : w.options.retry_threshold ≠ 0 := Nat.pos_iff_ne_zero.mp ht
    have hstep : failStep w f = w.become_cooler := by
      cases f
      · exact missed_warm w h0 hw
      · exact nothing_warm w h0 hw
    have hr1 : w.retries + 1 < u32Size := by omega
    have hcool : w.become_cooler = { w with retries := w.retries + 1 } := by
      rw [become_cooler_no_wrap w hr1, if_neg (by omega)]
    have happ : applyFails w (f :: fs) =
        applyFails { w with retries := w.retries + 1 } fs := by
      show applyFails (failStep w f) fs = _
      rw [hstep, hcool]
    have hlt1 : ({ w with retries := w.retries + 1 } :
        DequeWorker).retries + fs.length <
        ({ w with retries := w.retries + 1 } :
          DequeWorker).options.retry_threshold := by
      show w.retries + 1 + fs.length < w.options.retry_threshold
      omega
    obtain ⟨hl, hr⟩ := ih { w with retries := w.retries + 1 } ht htu hw hlt1
    refine ⟨by rw [happ]; exact hl, ?_⟩
    rw [happ, hr]
    show w.retries + 1 + fs.length = w.retries + (fs.length + 1)
    omega

/-- C2: with `retry_threshold = t > 0`, each Abort or Empty outcome while
Warm increments the retry counter by exactly 1 and the worker becomes Cold
exactly when the incremented counter reaches t; consequently a Hot worker is
never Cold after at most t consecutive failed steals; and the Scenario A
trace with t = 2 runs Hot, then Warm with 0 retries, then Warm with 1 retry,
then Cold with 2 retries. -/
theorem warm_ramp (t : Nat) (ht : 0 < t) (htu : t < u32Size) :
    (∀ w : DequeWorker, w.options.retry_threshold = t → w.load = Load.Warm →
      w.retries + 1 < u32Size →
      (w.missed.retries = w.retries + 1 ∧
       (w.missed.load = Load.Cold ↔ t ≤ w.retries + 1) ∧
       w.nothing.retries = w.retries + 1 ∧
       (w.nothing.load = Load.Cold ↔ t ≤ w.retries + 1))) ∧
    (∀ (w : DequeWorker) (fs : List Fail), w.options.retry_threshold = t →
      w.load = Load.Hot → fs.length ≤ t →
      (applyFails w fs).load ≠ Load.Cold) ∧
    ((applyFails ⟨0, Load.Hot, 0, ⟨2, 1000, 1⟩, 0⟩
        [Fail.empty]).load = Load.Warm ∧
     (applyFails ⟨0, Load.Hot, 0, ⟨2, 1000, 1⟩, 0⟩
        [Fail.empty]).retries = 0 ∧
     (applyFails ⟨0, Load.Hot, 0, ⟨2, 1000, 1⟩, 0⟩
        [Fail.empty, Fail.empty]).load = Load.Warm ∧
     (applyFails ⟨0, Load.Hot, 0, ⟨2, 1000, 1⟩, 0⟩
        [Fail.empty, Fail.empty]).retries = 1 ∧
     (applyFails ⟨0, Load.Hot, 0, ⟨2, 1000, 1⟩, 0⟩
        [Fail.empty, Fail.empty, Fail.empty]).load = Load.Cold ∧
     (applyFails ⟨0, Load.Hot, 0, ⟨2, 1000, 1⟩, 0⟩
        [Fail.empty, Fail.empty, Fail.empty]).retries = 2) := by
  refine ⟨?_, ?_, by decide⟩
  · intro w heq hw hr
    have h0 : w.options.retry_threshold ≠ 0 := by omega
    rw [missed_warm w h0 hw, nothing_warm w h0 hw]
    simp only [become_cooler_no_wrap w hr, heq]
    by_cases hc : t ≤ w.retries + 1
    · rw [if_pos hc]
      simp [hc]
    · rw [if_neg hc]
      simp [hc, hw]
  · intro w fs heq hw hlen
    cases fs with
    | nil =>
      show w.load ≠ Load.Cold
      rw [hw]
      intro hcon
      exact Load.noConfusion hcon
    | cons f fs =>
      simp only [List.length_cons] at hlen
      have h0 : w.options.retry_threshold ≠ 0 := by omega
      have hstep : failStep w f = w.become_warm := by
        cases f
        · exact missed_hot w h0 hw
        · exact nothing_hot w h0 hw
      have happ : applyFails w (f :: fs) = applyFails w.become_warm fs := by
        show applyFails (failStep w f) fs = _
        rw [hstep]
      have hlt : w.become_warm.retries + fs.length <
          w.become_warm.options.retry_threshold := by
        show 0 + fs.length < w.options.retry_threshold
        omega
      obtain ⟨hl, -⟩ := warm_ramp_aux fs w.become_warm (by show 0 < w.options.retry_threshold; omega)
        (by show w.options.retry_threshold < u32Size; omega) rfl hlt
      rw [happ, hl]
      intro hcon
      exact Load.noConfusion hcon

theorem warm_ramp_witness :
    (DequeWorker.missed ⟨0, Load.Warm, 0, ⟨2, 1000, 1⟩, 0⟩).retries = 0 + 1 ∧
    ((DequeWorker.missed ⟨0, Load.Warm, 0, ⟨2, 1000, 1⟩, 0⟩).load = Load.Cold ↔
      2 ≤ 0 + 1) ∧
    (DequeWorker.nothing ⟨0, Load.Warm, 0, ⟨2, 1000, 1⟩, 0⟩).retries = 0 + 1 ∧
    ((DequeWorker.nothing ⟨0, Load.Warm, 0, ⟨2, 1000, 1⟩, 0⟩).load = Load.Cold ↔
      2 ≤ 0 + 1) :=
  (warm_ramp 2 (by decide) (by decide)).1
    ⟨0, Load.Warm, 0, ⟨2, 1000, 1⟩, 0⟩ rfl rfl (by decide)

/-! ### Reachability invariant

Justification for the no-overflow hypotheses used above: every state reachable
from `hire` keeps the retry counter at most the threshold (strictly below it
while Warm), so with a genuine `u32` threshold the `retries += 1` in
`become_cooler` never wraps. -/

/-- Invariant on worker state: the retry counter never exceeds the threshold,
and is strictly below it while the worker is Warm. -/
def RetriesInv (w : DequeWorker) : Prop :=
  w.retries ≤ w.options.retry_threshold ∧
  (w.load = Load.Warm → w.retries < w.options.retry_threshold)

theorem retriesInv_hire (d : Deque) : RetriesInv d.hire.1 := by
  constructor
  · exact Nat.zero_le _
  · intro hl
    exact Load.noConfusion hl

theorem retriesInv_step (w : DequeWorker)
    (htu : w.options.retry_threshold < u32Size)
    (hinv : RetriesInv w) :
    (∀ f : Fail, RetriesInv (failStep w f)) ∧
    (∀ (j : Job) (w1 : DequeWorker), w.does j = some w1 → RetriesInv w1) := by
  obtain ⟨hle, hwarm⟩ := hinv
  constructor
  · intro f
    have hfail : failStep w f = w.missed ∨ failStep w f = w.nothing := by
      cases f
      · exact Or.inl rfl
      · exact Or.inr rfl
    by_cases h0 : w.options.retry_threshold = 0
    · rcases hfail with hf | hf <;> rw [hf]
      · rw [missed_threshold_zero w h0]
        exact ⟨hle, fun hl => Load.noConfusion hl⟩
      · rw [nothing_threshold_zero w h0]
        exact ⟨hle, fun hl => Load.noConfusion hl⟩
    · cases hl : w.load with
      | Hot =>
        have hbw : failStep w f = w.become_warm := by
          rcases hfail with hf | hf <;> rw [hf]
          · exact missed_hot w h0 hl
          · exact nothing_hot w h0 hl
        rw [hbw]
        exact ⟨Nat.zero_le _, fun _ => Nat.pos_of_ne_zero h0⟩
      | Warm =>
        have hbc : failStep w f = w.become_cooler := by
          rcases hfail with hf | hf <;> rw [hf]
          · exact missed_warm w h0 hl
          · exact nothing_warm w h0 hl
        have hr1 : w.retries + 1 < u32Size := by
          have := hwarm hl
          omega
        rw [hbc, become_cooler_no_wrap w hr1]
        by_cases hc : w.options.retry_threshold ≤ w.retries + 1
        · rw [if_pos hc]
          refine ⟨?_, fun hlc => Load.noConfusion hlc⟩
          show w.retries + 1 ≤ w.options.retry_threshold
          have := hwarm hl
          omega
        · rw [if_neg hc]
          constructor
          · show w.retries + 1 ≤ w.options.retry_threshold
            omega
          · intro _
            show w.retries + 1 < w.options.retry_threshold
            omega
      | Cold =>
        have hst : failStep w f = { w with load := Load.Hot } ∨ failStep w f = w := by
          rcases hfail with hf | hf <;> rw [hf]
          · exact Or.inl (missed_cold w h0 hl)
          · exact Or.inr (nothing_cold w h0 hl)
        rcases hst with hf | hf <;> rw [hf]
        · exact ⟨hle, fun hlc => Load.noConfusion hlc⟩
        · refine ⟨hle, fun hlc => ?_⟩
          rw [hl] at hlc
          exact Load.noConfusion hlc
  · intro j w1 hj
    unfold DequeWorker.does at hj
    by_cases hc : j.completes <;> simp [hc] at hj
    rw [← hj]
    exact ⟨hle, fun hlc => Load.noConfusion hlc⟩

end Kirk
